import Mathlib

/-!
Verification of the CSV-writing, parameter-sweep, metadata-collection and
timing logic of `src/main.py` (a Blender benchmarking harness), via a
shallow embedding of its Python functions into Lean.

Python dictionaries are modelled as insertion-ordered association lists
(`PyDict := List (String × String)`): assignment `d[k] = v` replaces the
value in place when the key exists and appends otherwise, and the
`{**a, **b}` merge folds the items of `b` into `a` in order. File contents
are modelled as the list of emitted CSV rows, each row a list of cells.
Ambient-system reads (platform facts, clock, psutil, /proc/cpuinfo) and
the opaque blocking host call are parameters of the embedded functions;
an operation that can raise is modelled as `Except String`.
-/

namespace BlenderBench

/-- A Python `dict[str, str]` (or `dict[str, Any]` with values rendered to
strings), as an insertion-ordered association list. -/
abbrev PyDict := List (String × String)

/-- First-match lookup, i.e. `d[k]` / `d.get(k)` on a well-formed dict. -/
def dictLookup (d : PyDict) (k : String) : Option String :=
  match d with
  | [] => none
  | (k', v) :: rest => if k' = k then some v else dictLookup rest k

/-- The key list `list(d.keys())`, in insertion order. -/
def dictKeys (d : PyDict) : List String :=
  (d : List (String × String)).map Prod.fst

/-- Python `d[k] = v`: replace in place if `k` is present, else append. -/
def dictInsert (d : PyDict) (k : String) (v : String) : PyDict :=
  if k ∈ dictKeys d then
    d.map (fun p => if p.1 = k then (k, v) else p)
  else
    d ++ [(k, v)]

/-- Python `{**a, **b}`: fold the items of `b` into `a` in order. -/
def dictMerge (a : PyDict) : PyDict → PyDict
  | [] => a
  | (k, v) :: rest => dictMerge (dictInsert a k v) rest

/-- A dict is well formed when its keys are distinct; every dict built by
Python dict operations satisfies this. -/
def DictWF (d : PyDict) : Prop := (dictKeys d).Nodup

instance (d : PyDict) : Decidable (DictWF d) := by
  unfold DictWF
  infer_instance

/-- Lexicographic (code-point) order on character lists; Python's `sorted`
compares strings exactly this way. -/
def charListLe : List Char → List Char → Bool
  | [], _ => true
  | _ :: _, [] => false
  | a :: as, b :: bs =>
    if a.toNat < b.toNat then true
    else if b.toNat < a.toNat then false
    else charListLe as bs

/-- Python's `a <= b` on strings: code-point lexicographic order. -/
def pyStrLe (a b : String) : Bool := charListLe a.data b.data

instance : IsTotal String (fun a b => pyStrLe a b = true) where
  total a b := by
    show charListLe a.data b.data = true ∨ charListLe b.data a.data = true
    generalize a.data = as
    generalize b.data = bs
    induction as generalizing bs with
    | nil => left; rfl
    | cons x as ih =>
      cases bs with
      | nil => right; rfl
      | cons y bs =>
        rcases Nat.lt_trichotomy x.toNat y.toNat with h | h | h
        · left; simp [charListLe, h]
        · rcases ih bs with h' | h' <;>
            [left; right] <;> simp [charListLe, h, h', Nat.lt_irrefl]
        · right; simp [charListLe, h]

instance : IsTrans String (fun a b => pyStrLe a b = true) where
  trans a b c hab hbc := by
    show charListLe a.data c.data = true
    rw [pyStrLe] at hab hbc
    generalize ha : a.data = as at hab
    generalize hb : b.data = bs at hab hbc
    generalize hc : c.data = cs at hbc
    clear ha hb hc
    revert hab hbc
    induction as generalizing bs cs with
    | nil => intro _ _; rfl
    | cons x as ih =>
      intro hab hbc
      cases bs with
      | nil => simp [charListLe] at hab
      | cons y bs =>
        cases cs with
        | nil => simp [charListLe] at hbc
        | cons z cs =>
          simp only [charListLe] at hab hbc ⊢
          rcases Nat.lt_trichotomy x.toNat y.toNat with h1 | h1 | h1
          · rcases Nat.lt_trichotomy y.toNat z.toNat with h2 | h2 | h2
            · have hxz : x.toNat < z.toNat := by omega
              simp [hxz]
            · have hxz : x.toNat < z.toNat := by omega
              simp [hxz]
            · have hzy : z.toNat < y.toNat := h2
              simp [Nat.lt_asymm hzy, hzy] at hbc
          · rcases Nat.lt_trichotomy y.toNat z.toNat with h2 | h2 | h2
            · have hxz : x.toNat < z.toNat := by omega
              simp [hxz]
            · have hxz : x.toNat = z.toNat := by omega
              simp [h1, Nat.lt_irrefl] at hab
              simp [h2, Nat.lt_irrefl] at hbc
              simp [hxz, Nat.lt_irrefl]
              exact ih bs cs hab hbc
            · have hzy : z.toNat < y.toNat := h2
              simp [Nat.lt_asymm hzy, hzy] at hbc
          · have hyx : y.toNat < x.toNat := h1
            simp [Nat.lt_asymm hyx, hyx] at hab

/-- Python's `sorted` on a collection of distinct strings. -/
def pySorted (l : List String) : List String :=
  List.insertionSort (fun a b => pyStrLe a b = true) l

/-! ### The CSV writer: `write_results_to_csv` (src/main.py lines 132-178)

File contents are modelled as the list of CSV rows already in the file
(`List (List String)`), wrapped in `Option`: `none` means the target file
does not exist. The platform metadata dict and the timestamp are
parameters because `get_platform_metadata()` and `datetime.now()` read the
ambient system; the writer calls each exactly once per invocation. -/

/-- `sorted(all_result_keys)` where `all_result_keys` is the set-union of
the keys of every result record (src/main.py lines 157-159 and 162). -/
def all_result_keys (results : List PyDict) : List String :=
  pySorted ((results.foldl (fun acc r => acc ++ dictKeys r) []).dedup)

/-- `base_metadata = {"timestamp": timestamp, **platform_metadata,
**custom_metadata}` (src/main.py lines 150-154). -/
def base_metadata_of (platform_metadata : PyDict) (timestamp : String)
    (custom_metadata : PyDict) : PyDict :=
  dictMerge (dictMerge (dictInsert [] "timestamp" timestamp) platform_metadata)
    custom_metadata

/-- `fieldnames = list(base_metadata.keys()) + sorted(all_result_keys)`
(src/main.py line 162). -/
def fieldnames_of (results : List PyDict) (platform_metadata : PyDict)
    (timestamp : String) (custom_metadata : PyDict) : List String :=
  dictKeys (base_metadata_of platform_metadata timestamp custom_metadata) ++
    all_result_keys results

/-- `csv.DictWriter.writerow`: one cell per field name, looked up in the
row dict; an absent key yields the default `restval`, rendered as an empty
cell. -/
def emitRow (fieldnames : List String) (row : PyDict) : List String :=
  fieldnames.map (fun f => (dictLookup row f).getD "")

/-- The row written for one result: the dict `{**base_metadata, **result}`
of src/main.py line 175, rendered against the field names. -/
def emitted_row (fieldnames : List String) (base_metadata result : PyDict) :
    List String :=
  emitRow fieldnames (dictMerge base_metadata result)

/-- `write_results_to_csv(results, output_file, custom_metadata, append)`:
returns the contents of the output file after the call. Mirrors
src/main.py lines 132-178: `file_exists` tests the target path, the mode
is `"a"` when appending to an existing file and `"w"` otherwise, and the
header is written exactly when the file is new or being overwritten. -/
def write_results_to_csv (results : List PyDict)
    (existing : Option (List (List String))) (platform_metadata : PyDict)
    (timestamp : String) (custom_metadata : PyDict) (append : Bool) :
    List (List String) :=
  let file_exists := existing.isSome
  let base_metadata := base_metadata_of platform_metadata timestamp custom_metadata
  let fieldnames := fieldnames_of results platform_metadata timestamp custom_metadata
  let mode_is_append := append && file_exists
  let initial := if mode_is_append then existing.getD [] else []
  let after_header :=
    if !file_exists || !append then initial ++ [fieldnames] else initial
  after_header ++ results.map (fun r => emitted_row fieldnames base_metadata r)

/-! ### The parameter sweep generator (src/main.py lines 220-242) -/

/-- `itertools.product(as, bs)`: all pairs, first (outer) component varying
slowest, as consumed by the `for` loops at src/main.py lines 230 and 239. -/
def itertoolsProduct {α β : Type} (as : List α) (bs : List β) :
    List (α × β) :=
  match as with
  | [] => []
  | a :: rest => bs.map (fun b => (a, b)) ++ itertoolsProduct rest bs

/-- `particle_n_frames = [50, 100]` (src/main.py line 220). -/
def particle_n_frames : List Nat := [50, 100]

/-- `particle_density = [500, 1_000]` (src/main.py line 221). -/
def particle_density : List Nat := [500, 1000]

/-- `raycast_cubes = [1_000, 5_000]` (src/main.py line 223). -/
def raycast_cubes : List Nat := [1000, 5000]

/-- `raycast_points = [1_000, 5_000]` (src/main.py line 224). -/
def raycast_points : List Nat := [1000, 5000]

/-- The particle-family parameter configurations generated at
src/main.py lines 230-236, as (n_frames, density) pairs. -/
def particle_sweep : List (Nat × Nat) :=
  itertoolsProduct particle_n_frames particle_density

/-- The raycast-family parameter configurations generated at
src/main.py lines 239-241, as (cubes, points) pairs. -/
def raycast_sweep : List (Nat × Nat) :=
  itertoolsProduct raycast_cubes raycast_points

/-! ### The timed invocation wrapper: `_bake_and_time` (src/main.py 82-90)

The single blocking host call `bpy.ops.object.simulation_nodes_cache_bake`
is opaque: it either completes or raises, modelled as an
`Except String Unit` supplied by the host. Wall-clock instants read by
`time.time()` are modelled as rationals. The embedding returns the
wrapper's outcome together with the number of bake invocations made. -/

/-- The opaque host: the outcome of one bake call. -/
structure BakeHost where
  bake : Except String Unit

/-- `_bake_and_time(obj)` (src/main.py lines 82-90): select the object,
read the clock, run the one bake call (an exception propagates unhandled),
read the clock again and return `end - start`. The second component counts
bake invocations. -/
def bake_and_time (host : BakeHost) (start fin : ℚ) :
    Except String ℚ × Nat :=
  match host.bake with
  | Except.error e => (Except.error e, 1)
  | Except.ok _ => (Except.ok (fin - start), 1)

/-! ### The metadata collector: `get_cpu_info` (src/main.py lines 20-57) -/

/-- `str(x)` for a Python `Optional[int]`: `None` renders as `"None"`. -/
def pyStrOfOptNat : Option Nat → String
  | none => "None"
  | some n => toString n

/-- The ambient system as seen by `get_cpu_info`: the outcome of each
lookup it performs. `Except.error` models the lookup raising; the
`f"{x:.2f}"`-formatted float strings are kept opaque. -/
structure SysEnv where
  psutil_available : Bool
  cpu_count_physical : Except String (Option Nat)
  cpu_count_logical : Except String (Option Nat)
  cpu_freq : Except String (Option (String × String × String))
  virtual_memory_gb : Except String String
  platform_system : String
  proc_cpuinfo : Except String (List String)

/-- Whether `pat` starts the character list `cs`. -/
def startsWithChars : List Char → List Char → Bool
  | [], _ => true
  | _ :: _, [] => false
  | p :: ps, c :: cs => p = c && startsWithChars ps cs

/-- Python's `pat in line` substring test, on character lists. -/
def containsChars (pat : List Char) : List Char → Bool
  | [] => startsWithChars pat []
  | c :: cs => startsWithChars pat (c :: cs) || containsChars pat cs

/-- Python's `line.split(":")`, on character lists. -/
def splitOnColon : List Char → List (List Char)
  | [] => [[]]
  | c :: cs =>
    match splitOnColon cs with
    | [] => if c = ':' then [[], []] else [[c]]
    | h :: t => if c = ':' then [] :: h :: t else (c :: h) :: t

/-- Blank characters removed by Python's `str.strip()`. -/
def isPySpace (c : Char) : Bool :=
  c = ' ' || c = '\t' || c = '\n' || c = '\r' ||
    c.toNat = 11 || c.toNat = 12

/-- Python's `str.strip()`: drop blank characters from both ends. -/
def stripChars (cs : List Char) : List Char :=
  ((cs.dropWhile isPySpace).reverse.dropWhile isPySpace).reverse

/-- The `for line in f` loop of src/main.py lines 50-53: find the first
line containing `"model name"` and return `line.split(":")[1].strip()`;
`none` when no line matches or the matching line has no second `:` part
(Python's `IndexError` there is caught by the surrounding `except`, which
also abandons the rest of the file). -/
def modelNameField : List String → Option String
  | [] => none
  | line :: rest =>
    if containsChars "model name".data line.data then
      match (splitOnColon line.data)[1]? with
      | some s => some (String.mk (stripChars s))
      | none => none
    else modelNameField rest

/-- The `try` block around `psutil.cpu_freq()` (src/main.py lines 30-37):
a raised exception or a falsy frequency record adds nothing. -/
def addCpuFreq (env : SysEnv) (d : PyDict) : PyDict :=
  match env.cpu_freq with
  | Except.error _ => d
  | Except.ok none => d
  | Except.ok (some (cur, mn, mx)) =>
    dictInsert (dictInsert (dictInsert d "cpu_freq_current_mhz" cur)
      "cpu_freq_min_mhz" mn) "cpu_freq_max_mhz" mx

/-- The `try` block around `psutil.virtual_memory()` (src/main.py lines
39-44): a raised exception adds nothing. -/
def addTotalRam (env : SysEnv) (d : PyDict) : PyDict :=
  match env.virtual_memory_gb with
  | Except.error _ => d
  | Except.ok s => dictInsert d "total_ram_gb" s

/-- The `platform.system() == "Linux"` block (src/main.py lines 47-55):
a failure opening or parsing `/proc/cpuinfo` adds nothing. -/
def addCpuModel (env : SysEnv) (d : PyDict) : PyDict :=
  if env.platform_system = "Linux" then
    match env.proc_cpuinfo with
    | Except.error _ => d
    | Except.ok lines =>
      match modelNameField lines with
      | none => d
      | some v => dictInsert d "cpu_model" v
  else d

/-- `get_cpu_info()` (src/main.py lines 20-57). The two
`psutil.cpu_count` calls at lines 26-27 are not inside any `try`, so an
exception there propagates out of the whole function; the frequency,
memory and /proc/cpuinfo lookups are each wrapped in `try/except: pass`. -/
def get_cpu_info (env : SysEnv) : Except String PyDict :=
  if env.psutil_available then
    match env.cpu_count_physical with
    | Except.error e => Except.error e
    | Except.ok phys =>
      match env.cpu_count_logical with
      | Except.error e => Except.error e
      | Except.ok logi =>
        let d := dictInsert (dictInsert [] "cpu_physical_cores"
          (pyStrOfOptNat phys)) "cpu_logical_cores" (pyStrOfOptNat logi)
        Except.ok (addCpuModel env (addTotalRam env (addCpuFreq env d)))
  else
    Except.ok (addCpuModel env [])

/-! ### The run loop of `main` (src/main.py lines 244-257) -/

/-- The `for` loop at src/main.py lines 246-252: run each test in order,
collecting its result record; the first raised exception propagates and
aborts the loop (and hence `main`). Each test's outcome is supplied by the
opaque host. -/
def run_tests : List (Except String PyDict) → Except String (List PyDict)
  | [] => Except.ok []
  | o :: rest =>
    match o with
    | Except.error e => Except.error e
    | Except.ok r =>
      match run_tests rest with
      | Except.error e => Except.error e
      | Except.ok rs => Except.ok (r :: rs)

/-- src/main.py lines 244-257: run all tests, then — only after every test
has completed — call `write_results_to_csv`. Returns the run's outcome and
the final state of the output file, which is untouched when the run
aborts. -/
def main_run (outcomes : List (Except String PyDict))
    (existing : Option (List (List String))) (platform_metadata : PyDict)
    (timestamp : String) (custom_metadata : PyDict) (append : Bool) :
    Except String Unit × Option (List (List String)) :=
  match run_tests outcomes with
  | Except.error e => (Except.error e, existing)
  | Except.ok results =>
    (Except.ok (),
      some (write_results_to_csv results existing platform_metadata timestamp
        custom_metadata append))

/-! ### Dictionary lemmas -/

theorem dictKeys_append (d₁ d₂ : PyDict) :
    dictKeys (d₁ ++ d₂) = dictKeys d₁ ++ dictKeys d₂ := by
  simp [dictKeys]

theorem dictKeys_dictInsert (d : PyDict) (k v : String) :
    dictKeys (dictInsert d k v) =
      if k ∈ dictKeys d then dictKeys d else dictKeys d ++ [k] := by
  unfold dictInsert
  split
  · simp only [if_pos ‹k ∈ dictKeys d›, dictKeys, List.map_map]
    apply List.map_congr_left
    intro p _
    by_cases h : p.1 = k <;> simp [h]
  · simp [dictKeys, if_neg ‹¬ k ∈ dictKeys d›]

theorem dictKeys_nil : dictKeys ([] : PyDict) = [] := rfl

theorem dictKeys_cons (k v : String) (d : PyDict) :
    dictKeys ((k, v) :: d) = k :: dictKeys d := rfl

theorem dictLookup_nil (k : String) : dictLookup ([] : PyDict) k = none := rfl

theorem dictLookup_cons (k' v : String) (d : PyDict) (k : String) :
    dictLookup ((k', v) :: d) k =
      if k' = k then some v else dictLookup d k := rfl

theorem dictLookup_eq_none_iff (d : PyDict) (k : String) :
    dictLookup d k = none ↔ k ∉ dictKeys d := by
  induction d with
  | nil => simp [dictLookup_nil, dictKeys_nil]
  | cons p rest ih =>
    obtain ⟨k', v⟩ := p
    rw [dictLookup_cons, dictKeys_cons]
    by_cases h : k' = k
    · subst h
      simp
    · have h' : ¬ k = k' := fun he => h he.symm
      simp [h, h', ih]

theorem dictLookup_append (d₁ d₂ : PyDict) (k : String) :
    dictLookup (d₁ ++ d₂) k =
      if k ∈ dictKeys d₁ then dictLookup d₁ k else dictLookup d₂ k := by
  induction d₁ with
  | nil => simp [dictKeys_nil, dictLookup_nil]
  | cons p rest ih =>
    obtain ⟨k', v⟩ := p
    rw [List.cons_append, dictLookup_cons, dictLookup_cons, dictKeys_cons]
    by_cases h : k' = k
    · subst h
      simp
    · have h' : ¬ k = k' := fun he => h he.symm
      simp [h, h', ih]

theorem dictLookup_replaceMap_ne (d : PyDict) (k v k' : String) (h : k' ≠ k) :
    dictLookup (d.map (fun p => if p.1 = k then (k, v) else p)) k' =
      dictLookup d k' := by
  induction d with
  | nil => rfl
  | cons p rest ih =>
    obtain ⟨a, b⟩ := p
    by_cases hak : a = k
    · subst hak
      simp only [List.map_cons, if_pos rfl, dictLookup_cons]
      have h' : ¬ a = k' := fun he => h he.symm
      simp [dictLookup_cons, h', ih]
    · simp only [List.map_cons, if_neg hak, dictLookup_cons]
      by_cases hak' : a = k' <;> simp [dictLookup_cons, hak', ih]

theorem dictLookup_replaceMap_self (d : PyDict) (k v : String)
    (h : k ∈ dictKeys d) :
    dictLookup (d.map (fun p => if p.1 = k then (k, v) else p)) k = some v := by
  induction d with
  | nil => simp [dictKeys_nil] at h
  | cons p rest ih =>
    obtain ⟨a, b⟩ := p
    by_cases hak : a = k
    · subst hak
      simp [dictLookup_cons]
    · rw [dictKeys_cons] at h
      rcases List.mem_cons.mp h with h' | h'
      · exact absurd h'.symm hak
      · simp only [List.map_cons, if_neg hak, dictLookup_cons]
        simp [hak, ih h']

/-- `dictInsert` behaves as a map update for lookups. -/
theorem dictLookup_dictInsert (d : PyDict) (k v k' : String) :
    dictLookup (dictInsert d k v) k' =
      if k' = k then some v else dictLookup d k' := by
  unfold dictInsert
  by_cases hmem : k ∈ dictKeys d
  · simp only [if_pos hmem]
    by_cases hk : k' = k
    · subst hk
      simp [dictLookup_replaceMap_self d k' v hmem]
    · simp [hk, dictLookup_replaceMap_ne d k v k' hk]
  · simp only [if_neg hmem]
    rw [dictLookup_append]
    by_cases hk : k' = k
    · subst hk
      simp [hmem, dictLookup_cons]
    · have hk2 : ¬ k = k' := fun he => hk he.symm
      by_cases hd : k' ∈ dictKeys d
      · simp [hd, hk]
      · simp [hd, hk, hk2, dictLookup_cons, dictLookup_nil,
          (dictLookup_eq_none_iff d k').mpr hd]

theorem dictWF_dictInsert (d : PyDict) (k v : String) (h : DictWF d) :
    DictWF (dictInsert d k v) := by
  unfold DictWF
  rw [dictKeys_dictInsert]
  by_cases hmem : k ∈ dictKeys d
  · simpa [hmem] using h
  · simp only [if_neg hmem]
    rw [List.nodup_append]
    refine ⟨h, List.nodup_singleton k, fun a ha hb => ?_⟩
    rw [List.mem_singleton] at hb
    subst hb
    exact hmem ha

theorem dictWF_dictMerge (a b : PyDict) (h : DictWF a) :
    DictWF (dictMerge a b) := by
  induction b generalizing a with
  | nil => exact h
  | cons p rest ih =>
    obtain ⟨k, v⟩ := p
    exact ih (dictInsert a k v) (dictWF_dictInsert a k v h)

/-- Merging `b` into `a`: keys of `b` win, other keys fall back to `a`.
The right operand is required to be a well-formed dict. -/
theorem dictLookup_dictMerge (a b : PyDict) (k : String) (hb : DictWF b) :
    dictLookup (dictMerge a b) k =
      if k ∈ dictKeys b then dictLookup b k else dictLookup a k := by
  induction b generalizing a with
  | nil => simp [dictMerge, dictKeys_nil, dictLookup_nil]
  | cons p rest ih =>
    obtain ⟨k0, v0⟩ := p
    have hb2 : (k0 :: dictKeys rest).Nodup := hb
    have hk0 : k0 ∉ dictKeys rest := (List.nodup_cons.mp hb2).1
    have hrest : DictWF rest := (List.nodup_cons.mp hb2).2
    show dictLookup (dictMerge (dictInsert a k0 v0) rest) k = _
    rw [ih (dictInsert a k0 v0) hrest, dictKeys_cons]
    by_cases hk : k = k0
    · subst hk
      simp [hk0, dictLookup_cons, dictLookup_dictInsert]
    · have hk' : ¬ k0 = k := fun he => hk he.symm
      by_cases hr : k ∈ dictKeys rest <;>
        simp [hr, hk, hk', dictLookup_cons, dictLookup_dictInsert]

theorem mem_dictKeys_dictMerge (a b : PyDict) (k : String) :
    k ∈ dictKeys (dictMerge a b) ↔ k ∈ dictKeys a ∨ k ∈ dictKeys b := by
  induction b generalizing a with
  | nil => simp [dictMerge, dictKeys_nil]
  | cons p rest ih =>
    obtain ⟨k0, v0⟩ := p
    show k ∈ dictKeys (dictMerge (dictInsert a k0 v0) rest) ↔ _
    rw [ih, dictKeys_dictInsert, dictKeys_cons]
    by_cases h : k0 ∈ dictKeys a
    · simp only [if_pos h, List.mem_cons]
      constructor
      · tauto
      · rintro (ha | hk | hr)
        · tauto
        · subst hk
          tauto
        · tauto
    · simp only [if_neg h, List.mem_cons, List.mem_append,
        List.mem_singleton]
      tauto

/-! ### Sortedness lemmas -/

theorem pySorted_sorted (l : List String) :
    (pySorted l).Sorted (fun a b => pyStrLe a b = true) :=
  List.sorted_insertionSort _ l

theorem pySorted_perm (l : List String) : (pySorted l).Perm l :=
  List.perm_insertionSort _ l

theorem mem_pySorted (l : List String) (k : String) :
    k ∈ pySorted l ↔ k ∈ l :=
  (pySorted_perm l).mem_iff

theorem pySorted_nodup (l : List String) (h : l.Nodup) :
    (pySorted l).Nodup :=
  (pySorted_perm l).nodup_iff.mpr h

/-! ### Sweep generator lemmas -/

theorem itertoolsProduct_length {α β : Type} (as : List α) (bs : List β) :
    (itertoolsProduct as bs).length = as.length * bs.length := by
  induction as with
  | nil => simp [itertoolsProduct]
  | cons a rest ih =>
    show ((bs.map fun b => (a, b)) ++ itertoolsProduct rest bs).length = _
    simp [ih]
    ring

theorem mem_itertoolsProduct {α β : Type} (as : List α) (bs : List β)
    (x : α) (y : β) :
    (x, y) ∈ itertoolsProduct as bs ↔ x ∈ as ∧ y ∈ bs := by
  induction as with
  | nil => simp [itertoolsProduct]
  | cons a rest ih =>
    show (x, y) ∈ (bs.map fun b => (a, b)) ++ itertoolsProduct rest bs ↔ _
    simp only [List.mem_append, List.mem_map, List.mem_cons, ih,
      Prod.mk.injEq]
    constructor
    · rintro (⟨b, hb, rfl, rfl⟩ | ⟨hx, hy⟩)
      · exact ⟨Or.inl rfl, hb⟩
      · exact ⟨Or.inr hx, hy⟩
    · rintro ⟨hx | hx, hy⟩
      · exact Or.inl ⟨y, hy, hx.symm, rfl⟩
      · exact Or.inr ⟨hx, hy⟩

theorem itertoolsProduct_nodup {α β : Type} (as : List α) (bs : List β)
    (ha : as.Nodup) (hb : bs.Nodup) :
    (itertoolsProduct as bs).Nodup := by
  induction as with
  | nil => simp [itertoolsProduct]
  | cons a rest ih =>
    rcases List.nodup_cons.mp ha with ⟨hna, hrest⟩
    show ((bs.map fun b => (a, b)) ++ itertoolsProduct rest bs).Nodup
    rw [List.nodup_append]
    refine ⟨hb.map fun b1 b2 h => congrArg Prod.snd h, ih hrest, ?_⟩
    intro p hp hp'
    obtain ⟨b, _, rfl⟩ := List.mem_map.mp hp
    have hfst : a ∈ rest ∧ b ∈ bs :=
      (mem_itertoolsProduct rest bs a b).mp hp'
    exact hna hfst.1

theorem itertoolsProduct_getElem {α β : Type} (as : List α) (bs : List β)
    (i j : Nat) (hi : i < as.length) (hj : j < bs.length) :
    (itertoolsProduct as bs)[i * bs.length + j]? =
      some (as.get ⟨i, hi⟩, bs.get ⟨j, hj⟩) := by
  induction as generalizing i with
  | nil => simp at hi
  | cons a rest ih =>
    cases i with
    | zero =>
      show ((bs.map fun b => (a, b)) ++
        itertoolsProduct rest bs)[0 * bs.length + j]? = _
      rw [Nat.zero_mul, Nat.zero_add,
        List.getElem?_append_left (by simpa using hj), List.getElem?_map,
        List.getElem?_eq_getElem hj]
      rfl
    | succ i' =>
      have hi' : i' < rest.length := by simpa using Nat.lt_of_succ_lt_succ hi
      have hidx : (i' + 1) * bs.length + j =
          bs.length + (i' * bs.length + j) := by
        ring
      show ((bs.map fun b => (a, b)) ++
        itertoolsProduct rest bs)[(i' + 1) * bs.length + j]? = _
      rw [hidx, List.getElem?_append_right
        (by simp only [List.length_map]; exact Nat.le_add_right _ _)]
      simp only [List.length_map, Nat.add_sub_cancel_left]
      exact ih i' hi'

/-! ### Claim C4 -/

/-- C4: for any two duplicate-free value lists, the sweep generator
(`itertools.product`) yields exactly `|as| * |bs|` configurations, with no
duplicates, in the deterministic order in which the outer variable varies
slowest (position `i * |bs| + j` holds `(as[i], bs[j])`); in particular
the particle sweep over frame counts `[50, 100]` and densities
`[500, 1000]` is `[(50,500), (50,1000), (100,500), (100,1000)]`. -/
theorem sweep_generator_correct {α β : Type} (as : List α) (bs : List β)
    (has : as.Nodup) (hbs : bs.Nodup) :
    (itertoolsProduct as bs).length = as.length * bs.length ∧
    (itertoolsProduct as bs).Nodup ∧
    (∀ i j (hi : i < as.length) (hj : j < bs.length),
      (itertoolsProduct as bs)[i * bs.length + j]? =
        some (as.get ⟨i, hi⟩, bs.get ⟨j, hj⟩)) ∧
    particle_sweep = [(50, 500), (50, 1000), (100, 500), (100, 1000)] :=
  ⟨itertoolsProduct_length as bs, itertoolsProduct_nodup as bs has hbs,
    fun i j hi hj => itertoolsProduct_getElem as bs i j hi hj, by decide⟩

/-- Witness for C4 at the concrete sweep lists of `main`. -/
theorem sweep_generator_correct_witness :
    particle_sweep.length = 4 ∧ raycast_sweep.Nodup ∧
    raycast_sweep = [(1000, 1000), (1000, 5000), (5000, 1000), (5000, 5000)] := by
  refine ⟨?_, ?_, by decide⟩
  · have h := sweep_generator_correct particle_n_frames particle_density
      (by decide) (by decide)
    simpa [particle_sweep, particle_n_frames, particle_density] using h.1
  · exact (sweep_generator_correct raycast_cubes raycast_points
      (by decide) (by decide)).2.1

/-! ### Claim C5 -/

/-- C5: `_bake_and_time` invokes the blocking host bake operation exactly
once and returns the elapsed wall-clock time `end - start` measured
immediately around that single call; it installs no handler, so a raised
host exception propagates out unchanged. -/
theorem bake_and_time_spec (host : BakeHost) (start fin : ℚ) :
    (bake_and_time host start fin).2 = 1 ∧
    (∀ e, host.bake = Except.error e →
      (bake_and_time host start fin).1 = Except.error e) ∧
    (∀ u, host.bake = Except.ok u →
      (bake_and_time host start fin).1 = Except.ok (fin - start)) := by
  refine ⟨?_, fun e he => ?_, fun u hu => ?_⟩ <;>
    cases h : host.bake <;>
      simp_all [bake_and_time]

/-- Witness for C5: a completed bake timed from 2s to 7s reports 5s, and
a raising bake propagates its error. -/
theorem bake_and_time_spec_witness :
    (bake_and_time ⟨Except.ok ()⟩ 2 7).2 = 1 ∧
    (bake_and_time ⟨Except.error "host error"⟩ 0 1).1 =
      Except.error "host error" ∧
    (bake_and_time ⟨Except.ok ()⟩ 2 7).1 = Except.ok 5 := by
  refine ⟨(bake_and_time_spec ⟨Except.ok ()⟩ 2 7).1,
    (bake_and_time_spec ⟨Except.error "host error"⟩ 0 1).2.1 "host error" rfl,
    ?_⟩
  have h := (bake_and_time_spec ⟨Except.ok ()⟩ 2 7).2.2 () rfl
  rw [h]
  norm_num

/-! ### Claim C8 -/

theorem run_tests_error_of_mem (outcomes : List (Except String PyDict))
    (h : ∃ o ∈ outcomes, ∃ e, o = Except.error e) :
    ∃ e, run_tests outcomes = Except.error e := by
  induction outcomes with
  | nil => simp at h
  | cons o rest ih =>
    rcases h with ⟨o', ho', e, he⟩
    rcases List.mem_cons.mp ho' with h1 | h1
    · subst h1
      subst he
      exact ⟨e, rfl⟩
    · cases o with
      | error e0 => exact ⟨e0, rfl⟩
      | ok r =>
        obtain ⟨e1, he1⟩ := ih ⟨o', h1, e, he⟩
        refine ⟨e1, ?_⟩
        show (match run_tests rest with
          | Except.error e => Except.error e
          | Except.ok rs => Except.ok (r :: rs)) = Except.error e1
        rw [he1]

/-- C8: if any test invocation raises, the whole run terminates with an
error and the output CSV file is left exactly as it was — no partial
results are written. -/
theorem run_aborts_without_writing (outcomes : List (Except String PyDict))
    (existing : Option (List (List String))) (platform_metadata : PyDict)
    (timestamp : String) (custom_metadata : PyDict) (append : Bool)
    (h : ∃ o ∈ outcomes, ∃ e, o = Except.error e) :
    (∃ e, (main_run outcomes existing platform_metadata timestamp
      custom_metadata append).1 = Except.error e) ∧
    (main_run outcomes existing platform_metadata timestamp
      custom_metadata append).2 = existing := by
  obtain ⟨e, he⟩ := run_tests_error_of_mem outcomes h
  constructor
  · exact ⟨e, by simp [main_run, he]⟩
  · simp [main_run, he]

/-- Witness for C8: a run whose second test raises leaves the existing
file contents untouched and reports the error. -/
theorem run_aborts_without_writing_witness :
    (main_run [Except.ok [("test_name", "particle")],
        Except.error "FileNotFoundError: raycasting.blend"]
      (some [["old row"]]) [] "T" [] true).2 = some [["old row"]] ∧
    (∃ e, (main_run [Except.ok [("test_name", "particle")],
        Except.error "FileNotFoundError: raycasting.blend"]
      (some [["old row"]]) [] "T" [] true).1 = Except.error e) := by
  have h := run_aborts_without_writing
    [Except.ok [("test_name", "particle")],
      Except.error "FileNotFoundError: raycasting.blend"]
    (some [["old row"]]) [] "T" [] true
    ⟨Except.error "FileNotFoundError: raycasting.blend",
      List.mem_cons_of_mem _ (List.mem_cons_self _ _),
      "FileNotFoundError: raycasting.blend", rfl⟩
  exact ⟨h.2, h.1⟩

/-! ### CSV writer lemmas -/

theorem mem_foldl_keys (results : List PyDict) (acc : List String)
    (k : String) :
    k ∈ results.foldl (fun acc r => acc ++ dictKeys r) acc ↔
      k ∈ acc ∨ ∃ r ∈ results, k ∈ dictKeys r := by
  induction results generalizing acc with
  | nil => simp
  | cons r rest ih =>
    rw [List.foldl_cons, ih]
    simp only [List.mem_append, List.mem_cons]
    constructor
    · rintro ((h | h) | ⟨r', hr', hk⟩)
      · exact Or.inl h
      · exact Or.inr ⟨r, Or.inl rfl, h⟩
      · exact Or.inr ⟨r', Or.inr hr', hk⟩
    · rintro (h | ⟨r', hr' | hr', hk⟩)
      · exact Or.inl (Or.inl h)
      · subst hr'
        exact Or.inl (Or.inr hk)
      · exact Or.inr ⟨r', hr', hk⟩

theorem mem_all_result_keys (results : List PyDict) (k : String) :
    k ∈ all_result_keys results ↔ ∃ r ∈ results, k ∈ dictKeys r := by
  unfold all_result_keys
  rw [mem_pySorted, List.mem_dedup, mem_foldl_keys]
  simp

theorem all_result_keys_nodup (results : List PyDict) :
    (all_result_keys results).Nodup :=
  pySorted_nodup _ (List.nodup_dedup _)

theorem all_result_keys_sorted (results : List PyDict) :
    (all_result_keys results).Sorted (fun a b => pyStrLe a b = true) :=
  pySorted_sorted _

theorem base_metadata_wf (pm : PyDict) (ts : String) (cm : PyDict) :
    DictWF (base_metadata_of pm ts cm) :=
  dictWF_dictMerge _ cm
    (dictWF_dictMerge _ pm
      (dictWF_dictInsert [] "timestamp" ts List.nodup_nil))

theorem write_head_overwrite (results : List PyDict)
    (pm : PyDict) (ts : String) (cm : PyDict) :
    (write_results_to_csv results none pm ts cm true).head? =
      some (fieldnames_of results pm ts cm) := by
  simp [write_results_to_csv]

/-! ### Claim C1 -/

/-- C1: the header row emitted by the CSV writer is the base-metadata keys
in insertion order followed by the alphabetically sorted, duplicate-free
union of all keys appearing across all result records; in particular for
two records with key sets `{a, b}` and `{a, c}` the header is the metadata
keys followed by `[a, b, c]`, and each data row leaves its missing field
empty. -/
theorem csv_header_spec (results : List PyDict) (pm : PyDict) (ts : String)
    (cm : PyDict) :
    (write_results_to_csv results none pm ts cm true).head? =
      some (fieldnames_of results pm ts cm) ∧
    fieldnames_of results pm ts cm =
      dictKeys (base_metadata_of pm ts cm) ++ all_result_keys results ∧
    (all_result_keys results).Sorted (fun a b => pyStrLe a b = true) ∧
    (all_result_keys results).Nodup ∧
    (∀ k, k ∈ all_result_keys results ↔ ∃ r ∈ results, k ∈ dictKeys r) ∧
    write_results_to_csv [[("a", "1"), ("b", "2")], [("a", "3"), ("c", "4")]]
        none [("host", "h")] "T" [] true =
      [["timestamp", "host", "a", "b", "c"],
       ["T", "h", "1", "2", ""],
       ["T", "h", "3", "", "4"]] :=
  ⟨write_head_overwrite results pm ts cm, rfl,
    all_result_keys_sorted results, all_result_keys_nodup results,
    fun k => mem_all_result_keys results k, by decide⟩

/-! ### Claim C2 -/

/-- C2: when the target file exists and append was requested the writer
appends the data rows with no header row; otherwise it overwrites,
emitting exactly one header row followed by the data rows. -/
theorem csv_append_overwrite (results : List PyDict)
    (existing : Option (List (List String))) (pm : PyDict) (ts : String)
    (cm : PyDict) (append : Bool) :
    (∀ old, existing = some old → append = true →
      write_results_to_csv results existing pm ts cm append =
        old ++ results.map (fun r =>
          emitted_row (fieldnames_of results pm ts cm)
            (base_metadata_of pm ts cm) r)) ∧
    ((existing = none ∨ append = false) →
      write_results_to_csv results existing pm ts cm append =
        fieldnames_of results pm ts cm ::
          results.map (fun r =>
            emitted_row (fieldnames_of results pm ts cm)
              (base_metadata_of pm ts cm) r)) := by
  constructor
  · rintro old rfl rfl
    simp [write_results_to_csv]
  · rintro (rfl | rfl) <;> simp [write_results_to_csv]

/-- Witness for C2: appending to an existing one-row file keeps that row
and writes no header; overwriting the same file emits one header row. -/
theorem csv_append_overwrite_witness :
    write_results_to_csv [[("a", "1")]] (some [["x"]]) [] "T" [] true =
      [["x"], ["T", "1"]] ∧
    write_results_to_csv [[("a", "1")]] (some [["x"]]) [] "T" [] false =
      [["timestamp", "a"], ["T", "1"]] := by
  constructor
  · rw [(csv_append_overwrite [[("a", "1")]] (some [["x"]]) [] "T" []
      true).1 [["x"]] rfl rfl]
    decide
  · rw [(csv_append_overwrite [[("a", "1")]] (some [["x"]]) [] "T" []
      false).2 (Or.inr rfl)]
    decide

/-! ### Claim C3 -/

/-- C3: when a key occurs both in the result record and in the base
metadata, the merged row holds the result record's value for it, and every
header column carrying that key renders the result record's value. -/
theorem result_key_overrides_metadata (base r : PyDict) (k : String)
    (hwf : DictWF r) (_hkb : k ∈ dictKeys base) (hk : k ∈ dictKeys r)
    (fieldnames : List String) :
    dictLookup (dictMerge base r) k = dictLookup r k ∧
    (∀ i : Nat, fieldnames[i]? = some k →
      (emitted_row fieldnames base r)[i]? =
        some ((dictLookup r k).getD "")) := by
  have h1 : dictLookup (dictMerge base r) k = dictLookup r k := by
    rw [dictLookup_dictMerge base r k hwf, if_pos hk]
  refine ⟨h1, fun i hf => ?_⟩
  show (fieldnames.map fun f => (dictLookup (dictMerge base r) f).getD "")[i]? = _
  rw [List.getElem?_map, hf]
  simp [h1]

/-- Witness for C3: a record value `9.5` for `elapsed_time` overrides the
metadata value `meta` in the emitted cell. -/
theorem result_key_overrides_metadata_witness :
    dictLookup (dictMerge [("elapsed_time", "meta")] [("elapsed_time", "9.5")])
      "elapsed_time" = some "9.5" ∧
    (emitted_row ["elapsed_time"] [("elapsed_time", "meta")]
      [("elapsed_time", "9.5")])[0]? = some "9.5" := by
  have h := result_key_overrides_metadata [("elapsed_time", "meta")]
    [("elapsed_time", "9.5")] "elapsed_time" (by decide) (by decide)
    (by decide) ["elapsed_time"]
  constructor
  · rw [h.1]
    decide
  · rw [h.2 0 (by decide)]
    decide

/-! ### Claim C9 -/

/-- C9: a custom-metadata key equal to a platform-metadata key or to the
reserved key `"timestamp"` wins in the base metadata (custom metadata is
merged last), and hence in every emitted row whose result record does not
itself override that key. -/
theorem custom_metadata_overrides (pm : PyDict) (ts : String) (cm : PyDict)
    (k : String) (hcm : DictWF cm) (hk : k ∈ dictKeys cm) :
    dictLookup (base_metadata_of pm ts cm) k = dictLookup cm k ∧
    (∀ r : PyDict, DictWF r → k ∉ dictKeys r →
      dictLookup (dictMerge (base_metadata_of pm ts cm) r) k =
        dictLookup cm k) := by
  have h1 : dictLookup (base_metadata_of pm ts cm) k = dictLookup cm k := by
    unfold base_metadata_of
    rw [dictLookup_dictMerge _ cm k hcm, if_pos hk]
  refine ⟨h1, fun r hr hkr => ?_⟩
  rw [dictLookup_dictMerge _ r k hr, if_neg hkr, h1]

/-- Witness for C9: custom metadata overriding both `"timestamp"` and the
collected `"platform"` value, surviving into a merged row. -/
theorem custom_metadata_overrides_witness :
    dictLookup (base_metadata_of [("platform", "Linux")] "T0"
      [("timestamp", "X"), ("platform", "W")]) "timestamp" = some "X" ∧
    dictLookup (dictMerge (base_metadata_of [("platform", "Linux")] "T0"
      [("timestamp", "X"), ("platform", "W")]) [("elapsed_time", "1.0")])
      "platform" = some "W" := by
  have h1 := custom_metadata_overrides [("platform", "Linux")] "T0"
    [("timestamp", "X"), ("platform", "W")] "timestamp" (by decide)
    (by decide)
  have h2 := custom_metadata_overrides [("platform", "Linux")] "T0"
    [("timestamp", "X"), ("platform", "W")] "platform" (by decide)
    (by decide)
  constructor
  · rw [h1.1]
    decide
  · rw [h2.2 [("elapsed_time", "1.0")] (by decide) (by decide)]
    decide

/-! ### Claim C10 -/

/-- C10: a result key that also occurs among the base-metadata keys
appears twice in the fieldname list — once in the metadata segment, once
in the sorted result segment — and hence twice in the emitted header
row. -/
theorem duplicate_header_column (results : List PyDict) (pm : PyDict)
    (ts : String) (cm : PyDict) (k : String)
    (hk : k ∈ dictKeys (base_metadata_of pm ts cm))
    (hr : ∃ r ∈ results, k ∈ dictKeys r) :
    (fieldnames_of results pm ts cm).count k = 2 ∧
    ((write_results_to_csv results none pm ts cm true).head?.getD []).count
      k = 2 := by
  have h1 : (dictKeys (base_metadata_of pm ts cm)).count k = 1 :=
    List.count_eq_one_of_mem (base_metadata_wf pm ts cm) hk
  have h2 : (all_result_keys results).count k = 1 :=
    List.count_eq_one_of_mem (all_result_keys_nodup results)
      ((mem_all_result_keys results k).mpr hr)
  have hcount : (fieldnames_of results pm ts cm).count k = 2 := by
    unfold fieldnames_of
    rw [List.count_append, h1, h2]
  refine ⟨hcount, ?_⟩
  rw [write_head_overwrite results pm ts cm]
  exact hcount

/-- Witness for C10: a result record that itself carries a `"timestamp"`
key makes `"timestamp"` a duplicated header column. -/
theorem duplicate_header_column_witness :
    (fieldnames_of [[("timestamp", "T1")]] [] "T0" []).count "timestamp" =
      2 := by
  exact (duplicate_header_column [[("timestamp", "T1")]] [] "T0" []
    "timestamp" (by decide) ⟨[("timestamp", "T1")], by simp, by decide⟩).1

/-! ### Claim C6 -/

/-- C6 counterexample. First conjunct: the two `psutil.cpu_count` lookups
are not individually wrapped, so when the physical-core lookup raises the
whole collector raises and none of the remaining lookups (here a perfectly
available frequency and memory) contribute anything. Second conjunct: a
core-count lookup that yields no value (`None`) produces a field holding
the placeholder string `"None"` instead of being silently absent. -/
theorem cpu_info_lookups_not_all_wrapped :
    get_cpu_info
      { psutil_available := true
        cpu_count_physical := Except.error "cpu_count raised"
        cpu_count_logical := Except.ok (some 8)
        cpu_freq := Except.ok (some ("1200.00", "800.00", "4000.00"))
        virtual_memory_gb := Except.ok "16.00"
        platform_system := "Linux"
        proc_cpuinfo := Except.error "unreadable" } =
      Except.error "cpu_count raised" ∧
    get_cpu_info
      { psutil_available := true
        cpu_count_physical := Except.ok none
        cpu_count_logical := Except.ok (some 8)
        cpu_freq := Except.error "freq raised"
        virtual_memory_gb := Except.error "mem raised"
        platform_system := "Darwin"
        proc_cpuinfo := Except.error "no such file" } =
      Except.ok [("cpu_physical_cores", "None"),
        ("cpu_logical_cores", "8")] :=
  ⟨rfl, rfl⟩

/-- C6 (amended): the frequency, memory, and /proc/cpuinfo lookups are
each individually wrapped: once the two (unwrapped) `psutil.cpu_count`
calls return, the collector succeeds no matter how those three lookups
fare, a failing wrapped lookup contributes no field, and a succeeding one
contributes its fields; the unwrapped core-count lookups abort the whole
collector on failure and record an unavailable count as the string
`"None"`. -/
theorem cpu_info_wrapped_lookups (env : SysEnv) (p l : Option Nat)
    (hps : env.psutil_available = true)
    (hp : env.cpu_count_physical = Except.ok p)
    (hl : env.cpu_count_logical = Except.ok l) :
    (∃ d, get_cpu_info env = Except.ok d) ∧
    (∀ d e, env.cpu_freq = Except.error e → addCpuFreq env d = d) ∧
    (∀ d e, env.virtual_memory_gb = Except.error e → addTotalRam env d = d) ∧
    (∀ d e, env.proc_cpuinfo = Except.error e → addCpuModel env d = d) ∧
    (∀ d s, env.virtual_memory_gb = Except.ok s →
      dictLookup (addTotalRam env d) "total_ram_gb" = some s) ∧
    (∀ d c mn mx, env.cpu_freq = Except.ok (some (c, mn, mx)) →
      dictLookup (addCpuFreq env d) "cpu_freq_current_mhz" = some c ∧
      dictLookup (addCpuFreq env d) "cpu_freq_min_mhz" = some mn ∧
      dictLookup (addCpuFreq env d) "cpu_freq_max_mhz" = some mx) := by
  refine ⟨⟨addCpuModel env (addTotalRam env (addCpuFreq env
      (dictInsert (dictInsert [] "cpu_physical_cores" (pyStrOfOptNat p))
        "cpu_logical_cores" (pyStrOfOptNat l)))),
      by simp [get_cpu_info, hps, hp, hl]⟩,
    fun d e he => by simp [addCpuFreq, he],
    fun d e he => by simp [addTotalRam, he],
    fun d e he => by simp [addCpuModel, he],
    fun d s hs => by simp [addTotalRam, hs, dictLookup_dictInsert],
    fun d c mn mx hf => ?_⟩
  unfold addCpuFreq
  rw [hf]
  refine ⟨?_, ?_, ?_⟩
  · rw [dictLookup_dictInsert, if_neg (by decide), dictLookup_dictInsert,
      if_neg (by decide), dictLookup_dictInsert, if_pos rfl]
  · rw [dictLookup_dictInsert, if_neg (by decide), dictLookup_dictInsert,
      if_pos rfl]
  · rw [dictLookup_dictInsert, if_pos rfl]

/-- Witness for C6 (amended): with both core counts available, a raised
frequency lookup is absorbed while the memory lookup still contributes. -/
theorem cpu_info_wrapped_lookups_witness :
    (∃ d, get_cpu_info
      { psutil_available := true
        cpu_count_physical := Except.ok (some 4)
        cpu_count_logical := Except.ok (some 8)
        cpu_freq := Except.error "freq raised"
        virtual_memory_gb := Except.ok "16.00"
        platform_system := "Linux"
        proc_cpuinfo := Except.ok ["model name : AMD Ryzen 9"] } =
      Except.ok d) ∧
    dictLookup (addTotalRam
      { psutil_available := true
        cpu_count_physical := Except.ok (some 4)
        cpu_count_logical := Except.ok (some 8)
        cpu_freq := Except.error "freq raised"
        virtual_memory_gb := Except.ok "16.00"
        platform_system := "Linux"
        proc_cpuinfo := Except.ok ["model name : AMD Ryzen 9"] } [])
      "total_ram_gb" = some "16.00" :=
  ⟨(cpu_info_wrapped_lookups _ (some 4) (some 8) rfl rfl rfl).1,
    (cpu_info_wrapped_lookups _ (some 4) (some 8) rfl rfl
      rfl).2.2.2.2.1 [] "16.00" rfl⟩

/-! ### Claim C7 -/

/-- C7 counterexample: the writer builds one shared timestamp, but a
result record may itself carry a `"timestamp"` key, and its value
overrides the shared one in that row — here the only data row renders
`"T1"` in both timestamp columns and the collection-time value `"T0"`
appears nowhere in the file, so not every data row carries the identical
collected metadata values. -/
theorem metadata_identical_rows_counterexample :
    write_results_to_csv [[("timestamp", "T1")]] none [] "T0" [] true =
      [["timestamp", "timestamp"], ["T1", "T1"]] ∧
    (∀ row ∈ write_results_to_csv [[("timestamp", "T1")]] none [] "T0" []
      true, "T0" ∉ row) := by
  decide

/-- C7 (amended): platform metadata and the timestamp are read once per
writer invocation; the single resulting base-metadata dict is merged into
every data row, so each row carries the identical shared value for every
metadata key its own result record does not override, and when nothing
shadows `"timestamp"` the shared collection-time timestamp is that
value. -/
theorem metadata_collected_once (results : List PyDict)
    (existing : Option (List (List String))) (pm : PyDict) (ts : String)
    (cm : PyDict) (append : Bool) :
    (∃ header_part, write_results_to_csv results existing pm ts cm append =
      header_part ++ results.map (fun r =>
        emitted_row (fieldnames_of results pm ts cm)
          (base_metadata_of pm ts cm) r)) ∧
    (∀ r : PyDict, DictWF r → ∀ k, k ∉ dictKeys r →
      dictLookup (dictMerge (base_metadata_of pm ts cm) r) k =
        dictLookup (base_metadata_of pm ts cm) k) ∧
    ("timestamp" ∉ dictKeys pm → DictWF pm →
      "timestamp" ∉ dictKeys cm → DictWF cm →
      dictLookup (base_metadata_of pm ts cm) "timestamp" = some ts) := by
  refine ⟨⟨_, rfl⟩, fun r hr k hkr => ?_, fun hpm hwpm hcm hwcm => ?_⟩
  · rw [dictLookup_dictMerge _ r k hr, if_neg hkr]
  · unfold base_metadata_of
    rw [dictLookup_dictMerge _ cm _ hwcm, if_neg hcm,
      dictLookup_dictMerge _ pm _ hwpm, if_neg hpm]
    simp [dictInsert, dictKeys_nil, dictLookup_cons]

/-- Witness for C7 (amended): a normal result record (no metadata-key
collision) leaves the shared timestamp intact in its merged row. -/
theorem metadata_collected_once_witness :
    dictLookup (dictMerge (base_metadata_of [("platform", "L")] "T0" [])
      [("elapsed_time", "1")]) "timestamp" = some "T0" := by
  have h := metadata_collected_once [[("elapsed_time", "1")]] none
    [("platform", "L")] "T0" [] true
  rw [h.2.1 [("elapsed_time", "1")] (by decide) "timestamp" (by decide)]
  exact h.2.2 (by decide) (by decide) (by decide) (by decide)

end BlenderBench
